import Mathlib

/-!
# Verification of the kmc-rs storage/query core

Shallow embedding of the kmc-rs wrapper (src/src/lib.rs, src/src/cxxbridge.rs)
and of the KMC engine pieces it delegates to.  The Rust glue under src/ is
embedded directly; the C++ engine (CKmerAPI / CKMCFile, compiled from
KMC/kmc_api, not present under src/) is modelled from the spec, with the
2-bit symbol table pinned by the repository's own tests.
-/

namespace KmcRs

/-- Modelled from the spec: the 2-bit symbol code used by CKmerAPI
(`kmer_api` of the KMC engine, not under src/).  The spec's table in §3
says A=00, C=01, T=10, G=11, but the repository's tests pin the table
bit-exactly to the ALPHABETICAL order A=00, C=01, G=10, T=11:
`test_from_u64_tcaaccttggaa` decodes `0b1101_0000_0101_1111_1010_0000`
(k=12) to "TCAACCTTGGAA" (so 11→T, 01→C, 00→A, 10→G), and the doc-test of
`as_u64` encodes "TAAGA" to `0b11_00_00_10_00` (so T→11, G→10).
Validation is case-insensitive (test `test_kmer_errors`: "actG" is Ok). -/
def charCode : Char → Option Nat
  | 'A' => some 0
  | 'C' => some 1
  | 'G' => some 2
  | 'T' => some 3
  | 'a' => some 0
  | 'c' => some 1
  | 'g' => some 2
  | 't' => some 3
  | _   => none

/-- Modelled from the spec: decoding one 2-bit code back to its symbol,
with the table pinned by the repository's tests (see `charCode`). -/
def codeChar : Nat → Char
  | 0 => 'A'
  | 1 => 'C'
  | 2 => 'G'
  | _ => 'T'

/-- Case normalization of a DNA symbol (the codec is case-insensitive and
always emits upper case on decode). -/
def normChar : Char → Char
  | 'a' => 'A'
  | 'c' => 'C'
  | 'g' => 'G'
  | 't' => 'T'
  | c   => c

/-- Complement of an (upper-case) DNA symbol: A↔T, C↔G. -/
def compChar : Char → Char
  | 'A' => 'T'
  | 'C' => 'G'
  | 'G' => 'C'
  | 'T' => 'A'
  | c   => c

/-- Textual reverse complement: reverse the symbol order, then complement
each base (spec §3 / glossary). -/
def rcText (us : List Char) : List Char :=
  us.reverse.map compChar

/-- Modelled from the spec: packing a symbol list into a 2-bit-per-symbol
integer, most significant symbol first (CKmerAPI storage, not under src/);
`none` when some character is outside the alphabet. -/
def encodeChars : List Char → Option Nat
  | [] => some 0
  | c :: rest =>
    match charCode c, encodeChars rest with
    | some h, some lo => some (h * 4 ^ rest.length + lo)
    | _, _ => none

/-- Modelled from the spec: decoding `k` symbols out of a packed value,
most significant symbol first (CKmerAPI::to_string, not under src/). -/
def decodeChars : Nat → Nat → List Char
  | 0, _ => []
  | k + 1, v => codeChar (v / 4 ^ k % 4) :: decodeChars k (v % 4 ^ k)

/-- Modelled from the spec: reverse complement of a packed value of `k`
symbols — reverse the symbol order and complement each 2-bit code
(A↔T, C↔G; over the test-pinned table this is `3 - code`). -/
def revCompPacked : Nat → Nat → Nat
  | 0, _ => 0
  | k + 1, v => revCompPacked k (v % 4 ^ k) * 4 + (3 - v / 4 ^ k % 4)

/-- Packed value of a valid text (0 for invalid text); used by the
spec-side canonicalization definition. -/
def textVal (us : List Char) : Nat :=
  (encodeChars us).getD 0

/-- Modelled from the spec (spec-side definition, for comparison):
`canonicalize_text` — the lexicographically/bit-pattern-smaller of a text
and its reverse complement (spec §3, §8). -/
def specCanonText (us : List Char) : List Char :=
  if textVal us ≤ textVal (rcText us) then us else rcText us

/-- Binary representation of a kmer (`Kmer` of src/src/lib.rs): number of
symbols `k` and the packed 2-bit-per-symbol value (`2*k` significant
bits). -/
structure Kmer where
  k : Nat
  val : Nat
deriving DecidableEq, Repr

/-- `Kmer::with_k` (src/src/lib.rs): reserve space for `k` symbols. -/
def Kmer.with_k (k : Nat) : Kmer :=
  ⟨k, 0⟩

/-- `Kmer::len` (src/src/lib.rs): number of symbols. -/
def Kmer.len (km : Kmer) : Nat :=
  km.k

/-- `Kmer::set_u64` (src/src/lib.rs): reset the kmer to a new bit-encoded
kmer of the same length; the engine keeps the low `2*k` bits (spec §4.1:
from_u64 takes the low `2*k` bits of `val` verbatim). -/
def Kmer.set_u64 (km : Kmer) (v : Nat) : Kmer :=
  { km with val := v % 4 ^ km.k }

/-- `Kmer::from_u64` (src/src/lib.rs): `with_k` followed by `set_u64`. -/
def Kmer.from_u64 (k : Nat) (v : Nat) : Kmer :=
  (Kmer.with_k k).set_u64 v

/-- `Kmer::as_u64` (src/src/lib.rs): the first 64 bits of the kmer. -/
def Kmer.as_u64 (km : Kmer) : Nat :=
  km.val % 2 ^ 64

/-- `Kmer::to_string` (declared in src/src/cxxbridge.rs; engine side
modelled from the spec): decode the packed value back to text. -/
def Kmer.to_string (km : Kmer) : List Char :=
  decodeChars km.k km.val

/-- Modelled from the spec: `CKmerApi::from_string` (declared in
src/src/cxxbridge.rs, engine not under src/): validate every character
against the alphabet {A,C,G,T} case-insensitively (test
`test_kmer_errors`), encode, and store the canonical packed value — the
smaller of the packed value and its reverse complement (spec §4.1:
encode "produces the canonical packed value, not the raw input
orientation"). -/
def from_string (cs : List Char) : Option Kmer :=
  match encodeChars cs with
  | none => none
  | some v => some ⟨cs.length, min v (revCompPacked cs.length v)⟩

/-- `Kmer::from` (src/src/lib.rs lines 180-186): build a kmer from text,
turning a `from_string` failure into an explicit error value. -/
def Kmer.fromStr (cs : List Char) : Except String Kmer :=
  match from_string cs with
  | none => Except.error "Internal Error in CKmerApi::from_string"
  | some km => Except.ok km

/-- Access mode of an opened KMC database (spec §3: mode tag
{RandomAccess, Iterator, Closed}). -/
inductive Mode where
  | ra
  | iter
  | closed
deriving DecidableEq, Repr

/-- State of a `KmcFile` (src/src/lib.rs): the underlying CKMCFile is
modelled from the spec as its mode tag, the database parameter `k`, the
stored (packed kmer, count) records in on-disk order, and the iteration
cursor (spec §3). -/
structure KmcFile where
  mode : Mode
  k : Nat
  records : List (Nat × Nat)
  cursor : Nat
deriving DecidableEq, Repr

/-- Modelled from the spec: the on-disk content of one KMC database —
the fixed `k` and the stored records (spec §6 file-pair format, byte
layout abstracted). -/
structure KmcBase where
  k : Nat
  records : List (Nat × Nat)

/-- `KmcFile::open_ra` (src/src/lib.rs): open in random-access mode; the
engine-side open (not under src/) is modelled from the spec as succeeding
exactly on a readable database, with the cursor at 0. -/
def KmcFile.open_ra (db : Option KmcBase) : Except String KmcFile :=
  match db with
  | some b => Except.ok ⟨Mode.ra, b.k, b.records, 0⟩
  | none => Except.error "Could not open for random access"

/-- `KmcFile::open_iter` (src/src/lib.rs): open in iterator (listing)
mode; engine side modelled from the spec, cursor initialized at 0. -/
def KmcFile.open_iter (db : Option KmcBase) : Except String KmcFile :=
  match db with
  | some b => Except.ok ⟨Mode.iter, b.k, b.records, 0⟩
  | none => Except.error "Could not open in listing mode"

/-- `KmcFile::kmer_length` (src/src/lib.rs): the database's `k`. -/
def KmcFile.kmer_length (f : KmcFile) : Nat :=
  f.k

/-- `KmcFile::num_kmers` (src/src/lib.rs): number of canonical k-mers
recorded in the database. -/
def KmcFile.num_kmers (f : KmcFile) : Nat :=
  f.records.length

/-- `KmcFile::count_kmer` (src/src/lib.rs line 129) delegating to
`CKMCFile::CheckKmer`, which is not under src/ and is modelled from the
spec: in random-access mode with matching kmer length, return the stored
count (0 when absent, spec §4.3); on a mode or length precondition
violation the declared FFI return type (`usize`, src/src/cxxbridge.rs
line 13) has no error channel, so the caller receives 0. -/
def KmcFile.count_kmer (f : KmcFile) (km : Kmer) : Nat :=
  if f.mode = Mode.ra ∧ km.k = f.k then
    match f.records.find? (fun r => r.1 = km.val) with
    | some r => r.2
    | none => 0
  else 0

/-- `KmcFile::restart` (src/src/lib.rs line 135) delegating to
`CKMCFile::RestartListing`, modelled from the spec: reset the cursor to
position 0; reports `true` only in iterator mode (spec §4.4: fails with a
mode-precondition error otherwise, surfaced through the `bool` FFI
return). -/
def KmcFile.restart (f : KmcFile) : Bool × KmcFile :=
  if f.mode = Mode.iter then (true, { f with cursor := 0 })
  else (false, f)

/-- Modelled from the spec: `CKMCFile::next` (declared as `next` in
src/src/cxxbridge.rs, engine not under src/): in iterator mode, read the
record at the cursor into the kmer, return its count and advance; return
`false` (no value) past the last record or in the wrong mode (spec
§4.4). -/
def ffiNext (f : KmcFile) (km : Kmer) : Option Nat × KmcFile × Kmer :=
  if f.mode = Mode.iter then
    match f.records[f.cursor]? with
    | some r => (some r.2, { f with cursor := f.cursor + 1 }, { km with val := r.1 })
    | none => (none, f, km)
  else (none, f, km)

/-- `KmcFile::read_next_unchecked` (src/src/lib.rs lines 160-167):
delegate to the engine's `next`. -/
def KmcFile.read_next_unchecked (f : KmcFile) (km : Kmer) :
    Option Nat × KmcFile × Kmer :=
  ffiNext f km

/-- `KmcFile::read_next` (src/src/lib.rs lines 147-153): guard the
unchecked read behind the length check `kmer.len() == self.kmer_length()`,
returning `None` on mismatch. -/
def KmcFile.read_next (f : KmcFile) (km : Kmer) :
    Option Nat × KmcFile × Kmer :=
  if km.len = f.kmer_length then f.read_next_unchecked km
  else (none, f, km)

/-- `KmcFile::close` (engine side, modelled from the spec §4.2): release
the backing resources; succeeds on an opened file, reports failure on a
file that is no longer open. -/
def KmcFile.close (f : KmcFile) : Bool × KmcFile :=
  if f.mode = Mode.closed then (false, f)
  else (true, { f with mode := Mode.closed })

/-- Result of running a Rust destructor: either it returns normally or it
aborts the process. -/
inductive DropResult where
  | ok
  | panic
deriving DecidableEq, Repr

/-- `impl Drop for KmcFile` (src/src/lib.rs lines 170-176): close the
backing resources; when `close` reports failure, panic ("error while
closing"). -/
def KmcFile.drop (f : KmcFile) : DropResult × KmcFile :=
  match f.close with
  | (true, f2) => (DropResult.ok, f2)
  | (false, f2) => (DropResult.panic, f2)

/-- Repeated `read_next` with explicit fuel: collect the (packed kmer,
count) pairs produced until `read_next` yields `None`, together with the
final file and kmer states. -/
def drainAux : Nat → KmcFile → Kmer → List (Nat × Nat) × KmcFile × Kmer
  | 0, f, km => ([], f, km)
  | fuel + 1, f, km =>
    match f.read_next km with
    | (some c, f2, km2) =>
      let rest := drainAux fuel f2 km2
      ((km2.val, c) :: rest.1, rest.2)
    | (none, _, _) => ([], f, km)

/-- Full drain of a `KmcFile` through `read_next` (the loop of the crate's
doc example, src/src/lib.rs lines 66-70): enough fuel to pass the last
record. -/
def KmcFile.drain (f : KmcFile) (km : Kmer) :
    List (Nat × Nat) × KmcFile × Kmer :=
  drainAux (f.records.length + 1) f km

/-- Modelled from the spec: the contents of the fixed test database
`data/test1` (not under src/) — a 5-mer index with 291 distinct canonical
k-mers in which "TAAGA" (packed `0b11_00_00_10_00` = 776) is recorded
with count 4 (spec §8 concrete scenario; records other than "TAAGA" are
below 776 and thus distinct from it, their counts unconstrained by the
spec). -/
def test1Records : List (Nat × Nat) :=
  (776, 4) :: (List.range 290).map (fun i => (i, 1))

/-- Modelled from the spec: the `data/test1` database. -/
def test1 : KmcBase :=
  ⟨5, test1Records⟩

/-! ## Helper lemmas -/

/-- Dividing a truncated value by a power-of-4 field offset and reducing
mod 4 reads the same 2-bit field as on the untruncated value, provided
the field lies below the truncation width. -/
theorem mod_pow_div_mod (v m k : Nat) (h : m + 1 ≤ k) :
    v % 4 ^ k / 4 ^ m % 4 = v / 4 ^ m % 4 := by
  have h4 : (4 : Nat) ^ k = 4 ^ m * 4 ^ (k - m) := by
    rw [← pow_add]
    congr 1
    omega
  rw [h4, Nat.mod_mul_right_div_self]
  exact Nat.mod_mod_of_dvd _ (dvd_pow_self 4 (by omega))

/-- Position `i` of the decoded text is the symbol of the 2-bit field at
offset `2*(k-1-i)` of the packed value. -/
theorem decodeChars_get (k v i : Nat) (hi : i < k) :
    (decodeChars k v).get? i = some (codeChar (v / 4 ^ (k - 1 - i) % 4)) := by
  induction k generalizing v i with
  | zero => omega
  | succ k ih =>
    cases i with
    | zero =>
      simp [decodeChars]
    | succ j =>
      have hj : j < k := by omega
      have step : (decodeChars (k + 1) v).get? (j + 1)
          = (decodeChars k (v % 4 ^ k)).get? j := by
        simp [decodeChars]
      rw [step, ih (v % 4 ^ k) j hj]
      have hk1 : k + 1 - 1 - (j + 1) = k - 1 - j := by omega
      rw [hk1, mod_pow_div_mod v (k - 1 - j) k (by omega)]

/-- read_next never changes the kmer length. -/
theorem readNext_kmer_k (f : KmcFile) (km : Kmer) :
    ((f.read_next km).2.2).k = km.k := by
  unfold KmcFile.read_next KmcFile.read_next_unchecked ffiNext
  split
  · split
    · split <;> rfl
    · rfl
  · rfl

/-- Behaviour of a fully fueled drain in iterator mode: it returns the
records from the cursor on, and leaves the file with the cursor one past
the last record. -/
theorem drainAux_run (fuel : Nat) : ∀ (f : KmcFile) (km : Kmer),
    f.mode = Mode.iter → km.k = f.k →
    f.records.length - f.cursor < fuel → f.cursor ≤ f.records.length →
    (drainAux fuel f km).1 = f.records.drop f.cursor ∧
    (drainAux fuel f km).2.1 = ⟨Mode.iter, f.k, f.records, f.records.length⟩ := by
  induction fuel with
  | zero =>
    intro f km hm hk hfuel hc
    omega
  | succ fuel ih =>
    intro f km hm hk hfuel hc
    by_cases hlt : f.cursor < f.records.length
    · have hr : f.records[f.cursor]? = some (f.records[f.cursor]) :=
        List.getElem?_eq_getElem hlt
      have hread : f.read_next km
          = (some (f.records[f.cursor]).2, { f with cursor := f.cursor + 1 },
             { km with val := (f.records[f.cursor]).1 }) := by
        unfold KmcFile.read_next KmcFile.read_next_unchecked ffiNext
        rw [hr]
        simp [Kmer.len, KmcFile.kmer_length, hk, hm]
      have ihx := ih { f with cursor := f.cursor + 1 }
        { km with val := (f.records[f.cursor]).1 }
        hm hk (by simpa using by omega) (by simpa using by omega)
      simp only [drainAux, hread]
      refine ⟨?_, ?_⟩
      · rw [List.drop_eq_getElem_cons hlt]
        simp [ihx.1]
      · simpa using ihx.2
    · have hcc : f.cursor = f.records.length := by omega
      have hr : f.records[f.cursor]? = none := List.getElem?_eq_none (by omega)
      have hread : f.read_next km = (none, f, km) := by
        unfold KmcFile.read_next KmcFile.read_next_unchecked ffiNext
        rw [hr]
        simp [Kmer.len, KmcFile.kmer_length, hk, hm]
      simp only [drainAux, hread]
      refine ⟨(List.drop_eq_nil_of_le (by omega)).symm, ?_⟩
      obtain ⟨m, k0, recs, cur⟩ := f
      simp only at hm hcc
      simp [hm, hcc]

/-- The kmer length survives a drain. -/
theorem drainAux_kmer_k (fuel : Nat) : ∀ (f : KmcFile) (km : Kmer),
    ((drainAux fuel f km).2.2).k = km.k := by
  induction fuel with
  | zero => intro f km; rfl
  | succ fuel ih =>
    intro f km
    rcases hread : f.read_next km with ⟨c, f2, km2⟩
    have hkm2 : km2.k = km.k := by
      have h := readNext_kmer_k f km
      rw [hread] at h
      exact h
    cases c with
    | some c =>
      simp only [drainAux, hread]
      rw [ih f2 km2, hkm2]
    | none => simp [drainAux, hread]

/-! ## Claim C1 — the 2-bit symbol table -/

/-- Claim C1 counterexample: the claim's own examples fail on the code.
`Kmer::from_u64(1, 0b10).to_string()` is `"G"`, not `"T"`, and
`Kmer::from_u64(1, 0b11).to_string()` is `"T"`, not `"G"`: the table the
repository's tests pin is the alphabetical A=00, C=01, G=10, T=11, not
the A=00, C=01, T=10, G=11 of the claim. -/
theorem c1_counterexample :
    (Kmer.from_u64 1 2).to_string = ['G'] ∧
    (Kmer.from_u64 1 2).to_string ≠ ['T'] ∧
    (Kmer.from_u64 1 3).to_string = ['T'] ∧
    (Kmer.from_u64 1 3).to_string ≠ ['G'] := by
  decide

/-- Claim C1 (amended): the packed 2-bit-per-symbol encoding maps symbols
as A=0b00, C=0b01, G=0b10, T=0b11 (alphabetical order); for every k ≤ 32
and every position i < k, the symbol decoded from the 2-bit field at that
position follows exactly this table, as does the code produced for each
symbol. -/
theorem c1_symbol_table (k v i : Nat) (_hk : k ≤ 32) (hi : i < k) :
    (Kmer.from_u64 k v).to_string.get? i
      = some (codeChar (v % 4 ^ k / 4 ^ (k - 1 - i) % 4)) ∧
    codeChar 0 = 'A' ∧ codeChar 1 = 'C' ∧ codeChar 2 = 'G' ∧ codeChar 3 = 'T' ∧
    charCode 'A' = some 0 ∧ charCode 'C' = some 1 ∧
    charCode 'G' = some 2 ∧ charCode 'T' = some 3 :=
  ⟨decodeChars_get k (v % 4 ^ k) i hi, rfl, rfl, rfl, rfl, rfl, rfl, rfl, rfl⟩

/-- Claim C1 witness: the amended table theorem applied at k = 5,
v = 776 (the packed "TAAGA"), position 0. -/
theorem c1_symbol_table_witness :
    (Kmer.from_u64 5 776).to_string.get? 0
      = some (codeChar (776 % 4 ^ 5 / 4 ^ (5 - 1 - 0) % 4)) ∧
    codeChar 0 = 'A' ∧ codeChar 1 = 'C' ∧ codeChar 2 = 'G' ∧ codeChar 3 = 'T' ∧
    charCode 'A' = some 0 ∧ charCode 'C' = some 1 ∧
    charCode 'G' = some 2 ∧ charCode 'T' = some 3 :=
  c1_symbol_table 5 776 0 (by decide) (by decide)

/-! ## Claim C2 — the fixed test database scenario -/

/-- Claim C2: opening the test database `data/test1` in random-access
mode succeeds and yields `kmer_length() = 5`, `num_kmers() = 291`, and
`count_kmer` on the Kmer built from "TAAGA" returns 4. -/
theorem c2_test1_scenario :
    KmcFile.open_ra (some test1) = Except.ok ⟨Mode.ra, 5, test1Records, 0⟩ ∧
    KmcFile.kmer_length ⟨Mode.ra, 5, test1Records, 0⟩ = 5 ∧
    KmcFile.num_kmers ⟨Mode.ra, 5, test1Records, 0⟩ = 291 ∧
    Kmer.fromStr (String.toList "TAAGA") = Except.ok ⟨5, 776⟩ ∧
    KmcFile.count_kmer ⟨Mode.ra, 5, test1Records, 0⟩ ⟨5, 776⟩ = 4 :=
  ⟨rfl, rfl, by simp [KmcFile.num_kmers, test1Records], rfl, by
    unfold KmcFile.count_kmer test1Records
    simp⟩

/-! ## Claim C3 — concrete encode/decode values -/

/-- Claim C3: encoding the text "TAAGA" produces the packed value
`0b11_00_00_10_00`, and decoding `0b1101_0000_0101_1111_1010_0000` with
k = 12 produces "TCAACCTTGGAA". -/
theorem c3_concrete_codec :
    Kmer.fromStr (String.toList "TAAGA") = Except.ok ⟨5, 0b1100001000⟩ ∧
    Kmer.as_u64 ⟨5, 0b1100001000⟩ = 0b1100001000 ∧
    (Kmer.from_u64 12 0b110100000101111110100000).to_string
      = String.toList "TCAACCTTGGAA" :=
  ⟨rfl, by decide, by decide⟩

/-! ## Claim C5 — wrong-mode calls -/

/-- Claim C5 counterexample: a random-access query on an iterator-mode
file is not reported as an explicit error value: `count_kmer` returns the
plain `usize` 0, the very value a correct random-access lookup of an
absent k-mer returns, so the caller cannot distinguish the mode violation
from a successful "not present" answer. -/
theorem c5_counterexample :
    KmcFile.count_kmer ⟨Mode.iter, 5, [(776, 4)], 0⟩ ⟨5, 776⟩ = 0 ∧
    KmcFile.count_kmer ⟨Mode.ra, 5, [(776, 4)], 0⟩ ⟨5, 0⟩ = 0 ∧
    (⟨Mode.iter, 5, [(776, 4)], 0⟩ : KmcFile).mode ≠ Mode.ra := by
  decide

/-- Claim C5 (amended): wrong-mode calls do not crash and are absorbed
into in-band sentinel values rather than distinct explicit errors:
`count_kmer` outside random-access mode returns 0 (the same value as a
successful lookup of an absent k-mer), `read_next` outside iterator mode
returns `None` leaving both the file and the kmer unchanged (the same
value as end-of-file), and only `restart` signals the violation
distinctly by returning `false`. -/
theorem c5_mode_sentinels (f : KmcFile) (km : Kmer) :
    (f.mode ≠ Mode.ra → f.count_kmer km = 0) ∧
    (f.mode ≠ Mode.iter →
      f.read_next km = (none, f, km) ∧ (f.restart).1 = false) := by
  refine ⟨fun h => ?_, fun h => ⟨?_, ?_⟩⟩
  · unfold KmcFile.count_kmer
    simp [h]
  · unfold KmcFile.read_next KmcFile.read_next_unchecked ffiNext
    by_cases hk : km.len = f.kmer_length <;> simp [hk, h]
  · unfold KmcFile.restart
    simp [h]

/-- Claim C5 witness: the amended sentinel theorem applied to a closed
file. -/
theorem c5_mode_sentinels_witness :
    KmcFile.count_kmer ⟨Mode.closed, 5, [], 0⟩ (Kmer.with_k 5) = 0 ∧
    KmcFile.read_next ⟨Mode.closed, 5, [], 0⟩ (Kmer.with_k 5)
      = (none, ⟨Mode.closed, 5, [], 0⟩, Kmer.with_k 5) ∧
    (KmcFile.restart ⟨Mode.closed, 5, [], 0⟩).1 = false := by
  have h := c5_mode_sentinels ⟨Mode.closed, 5, [], 0⟩ (Kmer.with_k 5)
  exact ⟨h.1 (by decide), (h.2 (by decide)).1, (h.2 (by decide)).2⟩

/-! ## Claim C6 — end-of-file semantics of read_next -/

/-- Claim C6 counterexample: end-of-file is not the only condition under
which `read_next` returns `None` on an iterator-mode file: with a kmer of
mismatched length it returns `None` while the cursor (0) has not passed
the last stored record (src/src/lib.rs lines 147-153). -/
theorem c6_counterexample :
    (⟨Mode.iter, 5, [(0, 1)], 0⟩ : KmcFile).mode = Mode.iter ∧
    (KmcFile.read_next ⟨Mode.iter, 5, [(0, 1)], 0⟩ (Kmer.with_k 3)).1 = none ∧
    (⟨Mode.iter, 5, [(0, 1)], 0⟩ : KmcFile).cursor
      < (⟨Mode.iter, 5, [(0, 1)], 0⟩ : KmcFile).records.length := by
  decide

/-- Claim C6 (amended): for a `KmcFile` opened in iterator mode and a
kmer whose length matches the file's `kmer_length`, `read_next` returns
`None` exactly when the cursor has passed the last stored record, and on
every call before that it reads the record at the cursor, returning
`Some(count)` and advancing; with a mismatched kmer it returns `None`
regardless of the cursor position. -/
theorem c6_eof_iff (f : KmcFile) (km : Kmer) (hm : f.mode = Mode.iter)
    (hk : km.k = f.k) :
    ((f.read_next km).1 = none ↔ f.records.length ≤ f.cursor) ∧
    (∀ r, f.records[f.cursor]? = some r →
      f.read_next km
        = (some r.2, { f with cursor := f.cursor + 1 }, { km with val := r.1 })) := by
  unfold KmcFile.read_next KmcFile.read_next_unchecked ffiNext Kmer.len
    KmcFile.kmer_length
  constructor
  · by_cases hc : f.records.length ≤ f.cursor
    · rw [List.getElem?_eq_none hc]
      simp [hk, hm, hc]
    · have hlt : f.cursor < f.records.length := by omega
      rw [List.getElem?_eq_getElem hlt]
      simp [hk, hm, hc]
  · intro r hr
    rw [hr]
    simp [hk, hm]

/-- Claim C6 witness: the amended theorem applied to a one-record
iterator-mode file with a matching 5-symbol kmer. -/
theorem c6_eof_iff_witness :
    ((KmcFile.read_next ⟨Mode.iter, 5, [(7, 2)], 0⟩ (Kmer.with_k 5)).1 = none
      ↔ (1 : Nat) ≤ 0) ∧
    KmcFile.read_next ⟨Mode.iter, 5, [(7, 2)], 0⟩ (Kmer.with_k 5)
      = (some 2, ⟨Mode.iter, 5, [(7, 2)], 1⟩, ⟨5, 7⟩) := by
  have h := c6_eof_iff ⟨Mode.iter, 5, [(7, 2)], 0⟩ (Kmer.with_k 5) rfl rfl
  exact ⟨h.1, h.2 (7, 2) rfl⟩

/-! ## Claim C8 — restart replays the same sequence -/

/-- Claim C8: on an iterator-mode file drained from the start, `restart`
succeeds and resets the cursor to position 0, and a second full drain via
`read_next` yields exactly the same list of (packed kmer, count) pairs —
same length, same order, same values — as the first drain. -/
theorem c8_restart_replays (f : KmcFile) (km : Kmer)
    (hm : f.mode = Mode.iter) (hc : f.cursor = 0) (hk : km.k = f.k) :
    (KmcFile.restart (f.drain km).2.1).1 = true ∧
    ((KmcFile.restart (f.drain km).2.1).2).cursor = 0 ∧
    (KmcFile.drain (KmcFile.restart (f.drain km).2.1).2 (f.drain km).2.2).1
      = (f.drain km).1 := by
  have h1 := drainAux_run (f.records.length + 1) f km hm hk (by omega) (by omega)
  have hkk : ((f.drain km).2.2).k = km.k :=
    drainAux_kmer_k (f.records.length + 1) f km
  have hf1 : (f.drain km).2.1 = ⟨Mode.iter, f.k, f.records, f.records.length⟩ :=
    h1.2
  have hrestart : KmcFile.restart (f.drain km).2.1
      = (true, ⟨Mode.iter, f.k, f.records, 0⟩) := by
    rw [hf1]
    rfl
  refine ⟨by rw [hrestart], by rw [hrestart], ?_⟩
  rw [hrestart]
  have h2 := drainAux_run (f.records.length + 1) ⟨Mode.iter, f.k, f.records, 0⟩
    (f.drain km).2.2 rfl (by rw [hkk]; exact hk) (by simp) (by simp)
  unfold KmcFile.drain at h2 ⊢
  simp only at h2 ⊢
  rw [h2.1, h1.1, hc]

/-- Claim C8 witness: a two-record iterator-mode database drained,
restarted, and drained again. -/
theorem c8_restart_replays_witness :
    (KmcFile.restart
      (KmcFile.drain ⟨Mode.iter, 5, [(7, 2), (9, 3)], 0⟩ (Kmer.with_k 5)).2.1).1
      = true ∧
    ((KmcFile.restart
      (KmcFile.drain ⟨Mode.iter, 5, [(7, 2), (9, 3)], 0⟩ (Kmer.with_k 5)).2.1).2).cursor
      = 0 ∧
    (KmcFile.drain
      (KmcFile.restart
        (KmcFile.drain ⟨Mode.iter, 5, [(7, 2), (9, 3)], 0⟩ (Kmer.with_k 5)).2.1).2
      (KmcFile.drain ⟨Mode.iter, 5, [(7, 2), (9, 3)], 0⟩ (Kmer.with_k 5)).2.2).1
      = (KmcFile.drain ⟨Mode.iter, 5, [(7, 2), (9, 3)], 0⟩ (Kmer.with_k 5)).1 :=
  c8_restart_replays ⟨Mode.iter, 5, [(7, 2), (9, 3)], 0⟩ (Kmer.with_k 5) rfl rfl rfl

/-! ## Claim C7 — Drop closes the file, close failure is fatal -/

/-- Claim C7: dropping a `KmcFile` always invokes `close` on the backing
resources (the resulting state is closed in every case, even when an
earlier operation left the handle in an unexpected state), a failure of
that release is a panic rather than a value-level error, and on any
still-open handle the drop completes normally. -/
theorem c7_drop_closes (f : KmcFile) :
    (f.drop).2.mode = Mode.closed ∧
    ((f.drop).1 = DropResult.panic ↔ (f.close).1 = false) ∧
    (f.mode ≠ Mode.closed →
      f.drop = (DropResult.ok, { f with mode := Mode.closed })) := by
  unfold KmcFile.drop KmcFile.close
  by_cases h : f.mode = Mode.closed <;> simp [h]

/-- Claim C7 witness: dropping an open random-access handle closes it
without panicking. -/
theorem c7_drop_closes_witness :
    (KmcFile.drop ⟨Mode.ra, 5, [], 0⟩).2.mode = Mode.closed ∧
    ((KmcFile.drop ⟨Mode.ra, 5, [], 0⟩).1 = DropResult.panic
      ↔ (KmcFile.close ⟨Mode.ra, 5, [], 0⟩).1 = false) ∧
    KmcFile.drop ⟨Mode.ra, 5, [], 0⟩
      = (DropResult.ok, ⟨Mode.closed, 5, [], 0⟩) := by
  have h := c7_drop_closes ⟨Mode.ra, 5, [], 0⟩
  exact ⟨h.1, h.2.1, h.2.2 (by decide)⟩

/-! ## Claim C10 — length mismatch leaves the cursor untouched -/

/-- Claim C10: when the kmer's length differs from the file's
`kmer_length`, `read_next` returns `None` without invoking the underlying
file read: the file state (in particular the cursor) and the kmer are
returned unchanged, so a later call resumes exactly where the mismatched
call found the file. -/
theorem c10_length_mismatch_no_read (f : KmcFile) (km : Kmer)
    (h : km.k ≠ f.k) :
    f.read_next km = (none, f, km) := by
  unfold KmcFile.read_next
  simp [Kmer.len, KmcFile.kmer_length, h]

/-- Claim C10 witness: a 3-symbol kmer against a 5-mer file. -/
theorem c10_length_mismatch_no_read_witness :
    KmcFile.read_next ⟨Mode.iter, 5, [(0, 1)], 0⟩ (Kmer.with_k 3)
      = (none, ⟨Mode.iter, 5, [(0, 1)], 0⟩, Kmer.with_k 3) :=
  c10_length_mismatch_no_read _ _ (by decide)

/-! ## Codec lemmas for claims C4 and C9 -/

/-- A symbol list encodes successfully exactly when every character is in
the (case-insensitive) alphabet. -/
theorem encodeChars_isSome (cs : List Char) :
    (encodeChars cs).isSome ↔ ∀ c ∈ cs, (charCode c).isSome := by
  induction cs with
  | nil => simp [encodeChars]
  | cons c rest ih =>
    simp only [encodeChars, List.mem_cons]
    cases hc : charCode c <;> cases hr : encodeChars rest <;>
      simp_all

/-- Facts about one valid symbol: its code is below 4, decoding it gives
the normalized character, normalization does not change the code, the
complement has the complementary code, and the complement is already
normalized. -/
theorem charCode_facts (c : Char) (h : Nat) (hc : charCode c = some h) :
    h < 4 ∧ codeChar h = normChar c ∧ charCode (normChar c) = some h ∧
    charCode (compChar (normChar c)) = some (3 - h) ∧
    normChar (compChar (normChar c)) = compChar (normChar c) := by
  unfold charCode at hc
  split at hc <;> first
  | (cases hc; decide)
  | cases hc

/-- Normalization does not change the symbol code. -/
theorem charCode_normChar (c : Char) : charCode (normChar c) = charCode c := by
  unfold normChar
  split <;> rfl

/-- Encoded values are bounded by 4 to the text length. -/
theorem encodeChars_lt (cs : List Char) (v : Nat)
    (h : encodeChars cs = some v) : v < 4 ^ cs.length := by
  induction cs generalizing v with
  | nil =>
    simp only [encodeChars, Option.some_inj] at h
    rw [← h]
    decide
  | cons c rest ih =>
    simp only [encodeChars] at h
    cases hc : charCode c with
    | none => rw [hc] at h; simp at h
    | some hcode =>
      cases hr : encodeChars rest with
      | none => rw [hc, hr] at h; simp at h
      | some lo =>
        rw [hc, hr] at h
        simp at h
        subst h
        have h1 := ih lo hr
        have h2 : hcode < 4 := (charCode_facts c hcode hc).1
        have h3 : (hcode + 1) * 4 ^ rest.length ≤ 4 * 4 ^ rest.length :=
          Nat.mul_le_mul_right _ (by omega)
        calc hcode * 4 ^ rest.length + lo
            < (hcode + 1) * 4 ^ rest.length := by nlinarith
          _ ≤ 4 * 4 ^ rest.length := h3
          _ = 4 ^ (c :: rest).length := by
              rw [List.length_cons, pow_succ]
              ring

/-- Division and remainder of a packed cons cell. -/
theorem pack_div_mod (hcode lo n : Nat) (hlo : lo < 4 ^ n) :
    (hcode * 4 ^ n + lo) / 4 ^ n = hcode ∧
    (hcode * 4 ^ n + lo) % 4 ^ n = lo := by
  constructor
  · rw [Nat.mul_comm hcode, Nat.mul_add_div (Nat.pos_pow_of_pos n (by omega))]
    rw [Nat.div_eq_of_lt hlo]
    omega
  · rw [Nat.mul_comm hcode, Nat.mul_add_mod]
    exact Nat.mod_eq_of_lt hlo

/-- Decoding inverts encoding, up to case normalization. -/
theorem decode_encode (cs : List Char) (v : Nat)
    (h : encodeChars cs = some v) :
    decodeChars cs.length v = cs.map normChar := by
  induction cs generalizing v with
  | nil => simp [decodeChars]
  | cons c rest ih =>
    simp only [encodeChars] at h
    cases hc : charCode c with
    | none => rw [hc] at h; simp at h
    | some hcode =>
      cases hr : encodeChars rest with
      | none => rw [hc, hr] at h; simp at h
      | some lo =>
        rw [hc, hr] at h
        simp at h
        subst h
        have hlo := encodeChars_lt rest lo hr
        have hfacts := charCode_facts c hcode hc
        have hdm := pack_div_mod hcode lo rest.length hlo
        simp only [List.length_cons, decodeChars, List.map_cons]
        rw [hdm.1, hdm.2, Nat.mod_eq_of_lt hfacts.1, hfacts.2.1, ih lo hr]

/-- Encoding a concatenation shifts the first part by the length of the
second. -/
theorem encodeChars_append (xs ys : List Char) (x y : Nat)
    (hx : encodeChars xs = some x) (hy : encodeChars ys = some y) :
    encodeChars (xs ++ ys) = some (x * 4 ^ ys.length + y) := by
  induction xs generalizing x with
  | nil =>
    simp [encodeChars] at hx
    subst hx
    simpa using hy
  | cons c rest ih =>
    simp only [encodeChars] at hx
    cases hc : charCode c with
    | none => rw [hc] at hx; simp at hx
    | some hcode =>
      cases hr : encodeChars rest with
      | none => rw [hc, hr] at hx; simp at hx
      | some lo =>
        rw [hc, hr] at hx
        simp at hx
        subst hx
        simp only [List.cons_append, encodeChars, List.append_eq, hc, ih lo hr]
        congr 1
        rw [List.length_append, pow_add]
        ring

/-- The packed reverse complement encodes the textual reverse complement
of the normalized text. -/
theorem encode_rcText (cs : List Char) (v : Nat)
    (h : encodeChars cs = some v) :
    encodeChars (rcText (cs.map normChar))
      = some (revCompPacked cs.length v) := by
  induction cs generalizing v with
  | nil => simp [rcText, encodeChars, revCompPacked]
  | cons c rest ih =>
    simp only [encodeChars] at h
    cases hc : charCode c with
    | none => rw [hc] at h; simp at h
    | some hcode =>
      cases hr : encodeChars rest with
      | none => rw [hc, hr] at h; simp at h
      | some lo =>
        rw [hc, hr] at h
        simp at h
        subst h
        have hfacts := charCode_facts c hcode hc
        have hlo := encodeChars_lt rest lo hr
        have hdm := pack_div_mod hcode lo rest.length hlo
        have hlist : rcText ((c :: rest).map normChar)
            = rcText (rest.map normChar) ++ [compChar (normChar c)] := by
          simp [rcText]
        rw [hlist]
        have h2 : encodeChars [compChar (normChar c)] = some (3 - hcode) := by
          simp [encodeChars, hfacts.2.2.2.1]
        rw [encodeChars_append _ _ _ _ (ih lo hr) h2]
        congr 1
        simp only [List.length_cons, revCompPacked]
        rw [hdm.1, hdm.2, Nat.mod_eq_of_lt hfacts.1]
        simp

/-- The reverse complement of a normalized valid text is already
normalized. -/
theorem rcText_norm_fixed (cs : List Char)
    (h : ∀ c ∈ cs, (charCode c).isSome) :
    (rcText (cs.map normChar)).map normChar = rcText (cs.map normChar) := by
  simp only [rcText, List.map_reverse, List.map_map]
  congr 1
  apply List.map_congr_left
  intro c hcm
  have hsome := h c hcm
  cases hc : charCode c with
  | none => rw [hc] at hsome; simp at hsome
  | some hcode => exact (charCode_facts c hcode hc).2.2.2.2

/-- Normalization before encoding changes nothing. -/
theorem encodeChars_map_normChar (cs : List Char) :
    encodeChars (cs.map normChar) = encodeChars cs := by
  induction cs with
  | nil => rfl
  | cons c rest ih =>
    simp only [List.map_cons, encodeChars, ih, List.length_map, charCode_normChar]

/-! ## Claim C4 — encoding canonicalizes -/

/-- Claim C4: for every text over {A,C,G,T} (case-insensitively),
constructing a Kmer from the text and decoding it back yields the
canonical form of the (case-normalized) input: the bit-pattern-smaller of
the text and its reverse complement, i.e. encoding produces the canonical
packed value, not the raw input orientation. -/
theorem c4_canonical_roundtrip (cs : List Char) (km : Kmer)
    (h : Kmer.fromStr cs = Except.ok km) :
    km.to_string = specCanonText (cs.map normChar) := by
  unfold Kmer.fromStr from_string at h
  cases henc : encodeChars cs with
  | none => rw [henc] at h; simp at h
  | some v =>
    rw [henc] at h
    simp at h
    subst h
    have hvalid : ∀ c ∈ cs, (charCode c).isSome := by
      rw [← encodeChars_isSome, henc]
      rfl
    have hus_enc : encodeChars (cs.map normChar) = some v := by
      rw [encodeChars_map_normChar]
      exact henc
    have hrc_enc := encode_rcText cs v henc
    have hlen_rc : (rcText (cs.map normChar)).length = cs.length := by
      simp [rcText]
    have htv_us : textVal (cs.map normChar) = v := by
      rw [textVal, hus_enc]
      rfl
    have htv_rc : textVal (rcText (cs.map normChar))
        = revCompPacked cs.length v := by
      rw [textVal, hrc_enc]
      rfl
    unfold Kmer.to_string specCanonText
    rw [htv_us, htv_rc]
    by_cases hle : v ≤ revCompPacked cs.length v
    · rw [if_pos hle]
      have hmin : min v (revCompPacked cs.length v) = v := min_eq_left hle
      simp only [hmin]
      have hd := decode_encode cs v henc
      simpa [List.length_map] using hd
    · rw [if_neg hle]
      have hmin : min v (revCompPacked cs.length v) = revCompPacked cs.length v :=
        min_eq_right (le_of_not_le hle)
      simp only [hmin]
      have hd := decode_encode (rcText (cs.map normChar))
        (revCompPacked cs.length v) hrc_enc
      rw [hlen_rc, rcText_norm_fixed cs hvalid] at hd
      simpa [List.length_map] using hd

/-- Claim C4 witness: "TAAGA" is already canonical (its packed value 776
is below its reverse complement's 892), and decoding returns it. -/
theorem c4_canonical_roundtrip_witness :
    Kmer.to_string ⟨5, 776⟩
      = specCanonText ((String.toList "TAAGA").map normChar) :=
  c4_canonical_roundtrip (String.toList "TAAGA") ⟨5, 776⟩ rfl

/-! ## Claim C9 — alphabet validation -/

/-- Claim C9: building a Kmer from text fails exactly when some character
lies outside {A,C,G,T} up to case — in particular "TCN" is rejected with
an error while the mixed-case "actG" succeeds — and successful encoding
never truncates: the kmer keeps the full input length. -/
theorem c9_validation (cs : List Char) :
    ((Kmer.fromStr cs).toOption.isSome ↔ ∀ c ∈ cs, (charCode c).isSome) ∧
    (∀ km, Kmer.fromStr cs = Except.ok km → km.k = cs.length) ∧
    Kmer.fromStr (String.toList "TCN")
      = Except.error "Internal Error in CKmerApi::from_string" ∧
    (Kmer.fromStr (String.toList "actG")).toOption.isSome = true := by
  refine ⟨?_, ?_, by rfl, by rfl⟩
  · rw [← encodeChars_isSome]
    unfold Kmer.fromStr from_string
    cases h : encodeChars cs <;> simp [Except.toOption]
  · intro km hkm
    unfold Kmer.fromStr from_string at hkm
    cases h : encodeChars cs with
    | none =>
      rw [h] at hkm
      simp at hkm
    | some v =>
      rw [h] at hkm
      simp at hkm
      rw [← hkm]

/-- Claim C9 witness: the validation theorem applied to "TAAGA", whose
5-symbol kmer keeps length 5. -/
theorem c9_validation_witness :
    (⟨5, 776⟩ : Kmer).k = (String.toList "TAAGA").length :=
  (c9_validation (String.toList "TAAGA")).2.1 ⟨5, 776⟩ rfl

end KmcRs
